import Mathlib

/-!
Verification of the generic in-memory record store of the
hexagonal-typical-scenario-ts repository.

The store (`InMemoryDatabase<T>` in
`src/infrastructure/databases/in-memory.database.ts`) keeps an ordered
JavaScript array `store : T[]` and offers `find`, `findById`, `filter`,
`create`, `update`, `delete`.  Records are opaque objects accessed by
dynamic property lookup (`item[key]`), so we embed a record as an
association list from attribute names to string values; a property read
on a missing attribute yields JavaScript `undefined`, embedded as `none`.
Mutating methods are embedded in state-passing style: each takes the
current array and returns the array after the call together with the
method result, where a thrown `Error` becomes `Except.error` with the
thrown message.
-/

/-- A stored record: an association list from attribute names to string
values (first binding wins, as in a JavaScript object). -/
structure Rec where
  attrs : List (String × String)
deriving DecidableEq, Repr

/-- Dynamic property lookup `item[key]`: `none` plays the role of
JavaScript `undefined` when the attribute is missing. -/
def getAttr (r : Rec) (k : String) : Option String :=
  (r.attrs.find? (fun kv => kv.1 == k)).map (fun kv => kv.2)

/-- A partial-attribute mapping (`Partial<T>` predicate object): the
key/value pairs the caller constrains. -/
abbrev Pred := List (String × String)

/-- The matching loop shared by `find` and `filter` in the source:
`for (const key in obj) if (item[key] !== obj[key]) return false; return true`. -/
def matchesPred (r : Rec) (p : Pred) : Bool :=
  p.all (fun kv => getAttr r kv.1 == some kv.2)

/-- The store contents: the private `store : T[]` array, in order. -/
abbrev Store := List Rec

namespace InMemoryDatabase

/-- The arrow predicate `(item: any) => item.id === id` used by
`findById`, `update` and `delete`. -/
def idMatches (id : String) (item : Rec) : Bool :=
  getAttr item "id" == some id

/-- `find(obj)`: first record matching every key/value pair of `obj`,
or `undefined`. -/
def find (s : Store) (p : Pred) : Option Rec :=
  s.find? (fun item => matchesPred item p)

/-- `findById(id)`: first record whose `id` attribute is `id`, or
`undefined`. -/
def findById (s : Store) (id : String) : Option Rec :=
  s.find? (idMatches id)

/-- `filter(obj?)`: the whole store when `obj` is omitted or has no
keys, otherwise every record matching all pairs of `obj`. -/
def filter (s : Store) (p : Option Pred) : List Rec :=
  match p with
  | none => s
  | some q => if q.isEmpty then s else s.filter (fun item => matchesPred item q)

/-- `create(item)`: `this.store.push(item)`. -/
def create (s : Store) (item : Rec) : Store :=
  s ++ [item]

/-- `update(id, item)`: find the index of the first record with the
given id; throw `"Item not found"` when there is none, otherwise write
`item` at that index and return it.  The returned store is the array
after the call. -/
def update (s : Store) (id : String) (item : Rec) : Store × Except String Rec :=
  match s.findIdx? (idMatches id) with
  | none => (s, Except.error "Item not found")
  | some i => (s.set i item, Except.ok item)

/-- `delete(id)`: find the index of the first record with the given id;
throw `"Item not found"` when there is none, otherwise
`splice(index, 1)`. -/
def delete (s : Store) (id : String) : Store × Except String Unit :=
  match s.findIdx? (idMatches id) with
  | none => (s, Except.error "Item not found")
  | some i => (s.eraseIdx i, Except.ok ())

end InMemoryDatabase

namespace UserAdapterImpl

/-- `getById(id)` of `UserAdapterImpl`: call `findById` on the store;
throw `"User not found"` on `undefined`, otherwise return the user. -/
def getById (s : Store) (id : String) : Except String Rec :=
  match InMemoryDatabase.findById s id with
  | none => Except.error "User not found"
  | some user => Except.ok user

/-- `add(user)` of `UserAdapterImpl`: delegate to `create`. -/
def add (s : Store) (user : Rec) : Store :=
  InMemoryDatabase.create s user

end UserAdapterImpl

/-- A call to one of the six public methods of the store. -/
inductive Op where
  | find (p : Pred)
  | findById (id : String)
  | filter (p : Option Pred)
  | create (r : Rec)
  | update (id : String) (r : Rec)
  | delete (id : String)
deriving DecidableEq, Repr

/-- The observable outcome of a method call. -/
inductive MethodResult where
  | found : Option Rec → MethodResult
  | many : List Rec → MethodResult
  | done : MethodResult
  | updated : Rec → MethodResult
  | err : String → MethodResult
deriving DecidableEq, Repr

/-- Whether an outcome is a thrown error. -/
def MethodResult.isErr : MethodResult → Bool
  | .err _ => true
  | _ => false

/-- Run one method call against the store: the store after the call and
the call result. -/
def runMethod (s : Store) : Op → Store × MethodResult
  | .find p => (s, .found (InMemoryDatabase.find s p))
  | .findById id => (s, .found (InMemoryDatabase.findById s id))
  | .filter p => (s, .many (InMemoryDatabase.filter s p))
  | .create r => (InMemoryDatabase.create s r, .done)
  | .update id r =>
    match InMemoryDatabase.update s id r with
    | (t, Except.ok r2) => (t, .updated r2)
    | (t, Except.error e) => (t, .err e)
  | .delete id =>
    match InMemoryDatabase.delete s id with
    | (t, Except.ok _) => (t, .done)
    | (t, Except.error e) => (t, .err e)

/-- The store after a method call. -/
def applyOp (s : Store) (op : Op) : Store :=
  (runMethod s op).1

/-- The store after a sequence of method calls. -/
def applyOps (s : Store) : List Op → Store
  | [] => s
  | op :: ops => applyOps (applyOp s op) ops

/-- Sample records used by concrete witnesses and counterexamples. -/
def recA : Rec := Rec.mk [("id", "1"), ("username", "alice"), ("password", "pw")]

/-- A second record carrying the same identifier as `recA`. -/
def recA2 : Rec := Rec.mk [("id", "1"), ("username", "alice2"), ("password", "pw")]

/-- A record with identifier `"2"`. -/
def recB : Rec := Rec.mk [("id", "2"), ("username", "bob"), ("password", "pw2")]

/-! ### Helper lemmas -/

theorem matchesPred_iff (r : Rec) (p : Pred) :
    matchesPred r p = true ↔ ∀ kv ∈ p, getAttr r kv.1 = some kv.2 := by
  simp [matchesPred, List.all_eq_true]

theorem matchesPred_eq_decide (r : Rec) (p : Pred) :
    matchesPred r p = decide (∀ kv ∈ p, getAttr r kv.1 = some kv.2) := by
  cases hm : matchesPred r p
  · have hno : ¬ ∀ kv ∈ p, getAttr r kv.1 = some kv.2 := by
      intro hall
      rw [(matchesPred_iff r p).mpr hall] at hm
      exact Bool.noConfusion hm
    exact (decide_eq_false hno).symm
  · exact (decide_eq_true ((matchesPred_iff r p).mp hm)).symm

theorem findById_none_iff_findIdx_none (s : Store) (id : String) :
    InMemoryDatabase.findById s id = none ↔
      s.findIdx? (InMemoryDatabase.idMatches id) = none := by
  simp [InMemoryDatabase.findById, List.find?_eq_none, List.findIdx?_eq_none_iff]

/-! ### Claim theorems -/

/-- C7: `create` appends the record at the end of the store, never fails
(it is a total function into `Store`, with no error outcome), and
performs no duplicate-identifier check: for every store, including one
that already holds a record with the same identifier, the new store is
the old store with the record appended. -/
theorem create_appends (s : Store) (r : Rec) :
    InMemoryDatabase.create s r = s ++ [r] ∧
    (InMemoryDatabase.create s r).length = s.length + 1 ∧
    (InMemoryDatabase.create s r).take s.length = s ∧
    (InMemoryDatabase.create s r).getLast? = some r ∧
    runMethod s (Op.create r) = (s ++ [r], MethodResult.done) := by
  refine ⟨rfl, by simp [InMemoryDatabase.create], ?_, ?_, rfl⟩
  · simp [InMemoryDatabase.create, List.take_left]
  · simp [InMemoryDatabase.create, List.getLast?_concat]

/-- C10: `find` with an empty predicate mapping returns the first record
of the store (every record passes the empty constraint loop), so it is
`none` exactly when the store is empty; `filter`, by contrast,
special-cases the empty predicate and returns the whole store. -/
theorem find_empty_pred (s : Store) :
    InMemoryDatabase.find s [] = s.head? ∧
    (InMemoryDatabase.find s [] = none ↔ s = []) ∧
    InMemoryDatabase.filter s (some []) = s := by
  refine ⟨?_, ?_, rfl⟩
  · cases s with
    | nil => rfl
    | cons a t => simp [InMemoryDatabase.find, matchesPred]
  · cases s with
    | nil => simp [InMemoryDatabase.find]
    | cons a t => simp [InMemoryDatabase.find, matchesPred]

/-- C8: the adapter's `getById` throws `"User not found"` exactly when
the store's `findById` returns `undefined`, and otherwise returns
exactly the record found by the store; the store-level read itself never
throws. -/
theorem getById_spec (s : Store) (id : String) :
    (UserAdapterImpl.getById s id = Except.error "User not found" ↔
      InMemoryDatabase.findById s id = none) ∧
    (∀ u : Rec, UserAdapterImpl.getById s id = Except.ok u ↔
      InMemoryDatabase.findById s id = some u) := by
  unfold UserAdapterImpl.getById
  cases h : InMemoryDatabase.findById s id <;> simp

/-- C2: when no stored record carries the given identifier, `update` and
`delete` both throw `"Item not found"` and return the store exactly as
it was. -/
theorem update_delete_notfound (s : Store) (id : String) (r : Rec)
    (h : InMemoryDatabase.findById s id = none) :
    InMemoryDatabase.update s id r = (s, Except.error "Item not found") ∧
    InMemoryDatabase.delete s id = (s, Except.error "Item not found") := by
  have hidx : s.findIdx? (InMemoryDatabase.idMatches id) = none :=
    (findById_none_iff_findIdx_none s id).mp h
  constructor <;> simp [InMemoryDatabase.update, InMemoryDatabase.delete, hidx]

/-- Witness for C2 at a concrete store and missing identifier. -/
theorem update_delete_notfound_witness :
    InMemoryDatabase.update [recA] "2" recB = ([recA], Except.error "Item not found") ∧
    InMemoryDatabase.delete [recA] "2" = ([recA], Except.error "Item not found") :=
  update_delete_notfound [recA] "2" recB (by decide)

/-- Which method calls are reads. -/
def isRead : Op → Bool
  | .find _ => true
  | .findById _ => true
  | .filter _ => true
  | _ => false

/-- C9: the read methods `find`, `findById` and `filter` leave the store
unchanged and never produce a thrown error: a miss surfaces as an
absent or empty result, never as an error outcome. -/
theorem reads_pure (s : Store) (m : Op) (h : isRead m = true) :
    (runMethod s m).1 = s ∧ (runMethod s m).2.isErr = false := by
  cases m with
  | find p => exact ⟨rfl, rfl⟩
  | findById id => exact ⟨rfl, rfl⟩
  | filter p => exact ⟨rfl, rfl⟩
  | create r => exact Bool.noConfusion h
  | update id r => exact Bool.noConfusion h
  | delete id => exact Bool.noConfusion h

/-- Witness for C9 at a concrete store and read call. -/
theorem reads_pure_witness :
    (runMethod [recA] (Op.findById "9")).1 = [recA] ∧
    (runMethod [recA] (Op.findById "9")).2.isErr = false :=
  reads_pure [recA] (Op.findById "9") rfl

/-- C5: `filter` with an omitted predicate returns the whole store in
order; `filter` with a predicate object returns exactly the subsequence
of stored records whose listed attributes all carry the listed values,
in original relative order (the empty predicate object is special-cased
to the whole store, which coincides with filtering by the vacuous
constraint). -/
theorem filter_spec (s : Store) :
    InMemoryDatabase.filter s none = s ∧
    (∀ p : Pred, InMemoryDatabase.filter s (some p) =
      s.filter (fun r => decide (∀ kv ∈ p, getAttr r kv.1 = some kv.2))) ∧
    (∀ (p : Pred) (r : Rec), r ∈ InMemoryDatabase.filter s (some p) ↔
      r ∈ s ∧ ∀ kv ∈ p, getAttr r kv.1 = some kv.2) ∧
    (∀ p : Pred, (InMemoryDatabase.filter s (some p)).Sublist s) := by
  have key : ∀ p : Pred, InMemoryDatabase.filter s (some p) =
      s.filter (fun r => decide (∀ kv ∈ p, getAttr r kv.1 = some kv.2)) := by
    intro p
    cases p with
    | nil =>
      simp [InMemoryDatabase.filter]
    | cons kv t =>
      have hred : InMemoryDatabase.filter s (some (kv :: t)) =
          s.filter (fun item => matchesPred item (kv :: t)) := rfl
      rw [hred]
      exact List.filter_congr fun r _ => matchesPred_eq_decide r (kv :: t)
  refine ⟨rfl, key, ?_, ?_⟩
  · intro p r
    rw [key p, List.mem_filter]
    simp
  · intro p
    rw [key p]
    exact List.filter_sublist s

/-- C6: `findById id` coincides with `find` applied to the predicate
object constraining only the `id` attribute; it is absent exactly when
no stored record carries the identifier, and when the store splits as
`s1 ++ r :: s2` with `r` carrying the identifier and nothing in `s1`
carrying it, it returns that earliest-inserted match `r`. -/
theorem findById_eq_find_id (s : Store) (id : String) :
    InMemoryDatabase.findById s id = InMemoryDatabase.find s [("id", id)] ∧
    (InMemoryDatabase.findById s id = none ↔ ∀ r ∈ s, getAttr r "id" ≠ some id) ∧
    (∀ (s1 : List Rec) (r : Rec) (s2 : List Rec),
      s = s1 ++ r :: s2 → getAttr r "id" = some id →
      (∀ x ∈ s1, getAttr x "id" ≠ some id) →
      InMemoryDatabase.findById s id = some r) := by
  refine ⟨?_, ?_, ?_⟩
  · have hfun : (fun item => matchesPred item [("id", id)]) =
        InMemoryDatabase.idMatches id := by
      funext item
      simp [matchesPred, InMemoryDatabase.idMatches]
    rw [InMemoryDatabase.findById, InMemoryDatabase.find, hfun]
  · simp [InMemoryDatabase.findById, List.find?_eq_none, InMemoryDatabase.idMatches]
  · intro s1 r s2 hs hr h1
    subst hs
    rw [InMemoryDatabase.findById, List.find?_append]
    have hnone : s1.find? (InMemoryDatabase.idMatches id) = none := by
      rw [List.find?_eq_none]
      intro x hx
      simp [InMemoryDatabase.idMatches]
      exact h1 x hx
    rw [hnone, List.find?_cons_of_pos _ (by simp [InMemoryDatabase.idMatches, hr])]
    rfl

/-- Witness for C6: the earliest-inserted-match clause applied at a
concrete store holding two records with the same identifier. -/
theorem findById_eq_find_id_witness :
    InMemoryDatabase.findById [recB, recA, recA2] "1" = some recA :=
  (findById_eq_find_id [recB, recA, recA2] "1").2.2 [recB] recA [recA2]
    rfl (by decide) (by decide)

/-- If position `i` holds the first match of predicate `p` and the
replacement `x` itself satisfies `p`, then after writing `x` at `i` the
first match of `p` is `x`. -/
theorem find?_set_of_findIdx? {α : Type} (p : α → Bool) (x : α) :
    ∀ (l : List α) (i : Nat), l.findIdx? p = some i → p x = true →
      (l.set i x).find? p = some x := by
  intro l
  induction l with
  | nil => intro i h hx; simp at h
  | cons a t ih =>
    intro i h hx
    rw [List.findIdx?_cons] at h
    by_cases ha : p a = true
    · rw [if_pos ha] at h
      obtain rfl : 0 = i := Option.some.inj h
      rw [List.set_cons_zero]
      exact List.find?_cons_of_pos t hx
    · rw [if_neg ha, List.findIdx?_start_succ] at h
      obtain ⟨j, hj, rfl⟩ := Option.map_eq_some'.mp h
      rw [List.set_cons_succ, List.find?_cons_of_neg _ ha]
      exact ih j hj hx

/-- C3 (amended): when position `i` holds the first record matching the
given identifier, `update` writes the new record at exactly that
position and returns it; length and every other position are unchanged,
and — provided the new record carries the targeted identifier —
`findById` on that identifier afterwards returns the new record. -/
theorem update_replaces_in_place (s : Store) (id : String) (r2 : Rec) (i : Nat)
    (h : s.findIdx? (InMemoryDatabase.idMatches id) = some i) :
    InMemoryDatabase.update s id r2 = (s.set i r2, Except.ok r2) ∧
    (s.set i r2).length = s.length ∧
    (s.set i r2)[i]? = some r2 ∧
    (∀ j, j ≠ i → (s.set i r2)[j]? = s[j]?) ∧
    (getAttr r2 "id" = some id →
      InMemoryDatabase.findById (s.set i r2) id = some r2) := by
  obtain ⟨hlen, hpi, hbefore⟩ := List.findIdx?_eq_some_iff_getElem.mp h
  refine ⟨by simp [InMemoryDatabase.update, h], by simp, ?_, ?_, ?_⟩
  · exact List.getElem?_set_self hlen
  · intro j hj
    exact List.getElem?_set_ne (fun he => hj he.symm)
  · intro hr2
    show (s.set i r2).find? (InMemoryDatabase.idMatches id) = some r2
    exact find?_set_of_findIdx? (InMemoryDatabase.idMatches id) r2 s i h
      (by simp [InMemoryDatabase.idMatches, hr2])

/-- Counterexample to C3 as stated: updating id `"2"` with a record
whose own identifier is `"1"` succeeds, but `findById` on the new
record's identifier still answers the untouched first record, not the
replacement. -/
theorem update_findById_counterexample :
    (InMemoryDatabase.update [recA, recB] "2" recA2).2 = Except.ok recA2 ∧
    InMemoryDatabase.findById (InMemoryDatabase.update [recA, recB] "2" recA2).1 "1" =
      some recA ∧
    InMemoryDatabase.findById (InMemoryDatabase.update [recA, recB] "2" recA2).1 "1" ≠
      some recA2 :=
  ⟨rfl, by decide, by decide⟩

/-- Witness for C3 at a concrete store. -/
theorem update_replaces_in_place_witness :
    InMemoryDatabase.update [recA] "1" recA2 = ([recA].set 0 recA2, Except.ok recA2) ∧
    InMemoryDatabase.findById ([recA].set 0 recA2) "1" = some recA2 :=
  ⟨(update_replaces_in_place [recA] "1" recA2 0 (by decide)).1,
   (update_replaces_in_place [recA] "1" recA2 0 (by decide)).2.2.2.2 (by decide)⟩

/-- C4: when position `i` holds the first record matching the given
identifier, `delete` removes exactly that position (the store becomes
the records before it followed by the records after it, in order), the
size drops by exactly one, the result is a subsequence of the old
store, the removed record did match the identifier and loses exactly
one occurrence in a subsequent full `filter()`, and every earlier
position did not match (so the first match is the one removed). -/
theorem delete_first_match (s : Store) (id : String) (i : Nat)
    (h : s.findIdx? (InMemoryDatabase.idMatches id) = some i) :
    InMemoryDatabase.delete s id = (s.take i ++ s.drop (i + 1), Except.ok ()) ∧
    (InMemoryDatabase.delete s id).1.length + 1 = s.length ∧
    (InMemoryDatabase.delete s id).1.Sublist s ∧
    (∀ x : Rec, s[i]? = some x →
      InMemoryDatabase.idMatches id x = true ∧
      (InMemoryDatabase.filter (InMemoryDatabase.delete s id).1 none).count x + 1 =
        s.count x) ∧
    (∀ j, j < i → ∀ x : Rec, s[j]? = some x →
      InMemoryDatabase.idMatches id x = false) := by
  obtain ⟨hlen, hpi, hbefore⟩ := List.findIdx?_eq_some_iff_getElem.mp h
  have hdel : InMemoryDatabase.delete s id = (s.eraseIdx i, Except.ok ()) := by
    simp [InMemoryDatabase.delete, h]
  have hdecomp : s.take i ++ s[i] :: s.drop (i + 1) = s := by
    rw [← List.drop_eq_getElem_cons hlen, List.take_append_drop]
  refine ⟨?_, ?_, ?_, ?_, ?_⟩
  · rw [hdel, List.eraseIdx_eq_take_drop_succ]
  · rw [hdel]
    simp only [List.length_eraseIdx_of_lt hlen]
    exact Nat.sub_add_cancel (Nat.lt_of_le_of_lt (Nat.zero_le i) hlen)
  · rw [hdel]
    exact List.eraseIdx_sublist s i
  · intro x hx
    rw [List.getElem?_eq_getElem hlen] at hx
    obtain rfl : s[i] = x := Option.some.inj hx
    refine ⟨hpi, ?_⟩
    rw [hdel]
    have hc : ∀ y : Rec, s.count y =
        (s.take i).count y + (s[i] :: s.drop (i + 1)).count y := by
      intro y
      conv_lhs => rw [← hdecomp]
      rw [List.count_append]
    show (s.eraseIdx i).count s[i] + 1 = s.count s[i]
    rw [List.eraseIdx_eq_take_drop_succ, List.count_append, hc, List.count_cons]
    simp [Nat.add_assoc]
  · intro j hj x hxj
    have hjlen : j < s.length := Nat.lt_trans hj hlen
    rw [List.getElem?_eq_getElem hjlen] at hxj
    obtain rfl : s[j] = x := Option.some.inj hxj
    exact Bool.eq_false_iff.mpr (hbefore j hj)

/-- Witness for C4 at a concrete two-record store. -/
theorem delete_first_match_witness :
    InMemoryDatabase.delete [recA, recB] "1" =
      ([recA, recB].take 0 ++ [recA, recB].drop 1, Except.ok ()) ∧
    (InMemoryDatabase.delete [recA, recB] "1").1.length + 1 = 2 :=
  ⟨(delete_first_match [recA, recB] "1" 0 (by decide)).1,
   (delete_first_match [recA, recB] "1" 0 (by decide)).2.1⟩

/-- Counterexample to C1 as stated: `recA2` is inserted via `create`
into a store already holding `recA` with the same identifier, no
operation updates or deletes `recA2`, yet `findById` on its identifier
answers the earlier record `recA`, which is not equal to `recA2`. -/
theorem create_findById_counterexample :
    InMemoryDatabase.findById (applyOps [] [Op.create recA, Op.create recA2]) "1" =
      some recA ∧
    recA ≠ recA2 ∧ getAttr recA2 "id" = some "1" := by
  refine ⟨by decide, by decide, by decide⟩

/-- The method call neither targets identifier `rid` with `update` or
`delete`, nor installs via `update` a replacement record carrying
identifier `rid`. -/
def avoidsId (rid : String) : Op → Bool
  | .update id r => !(id == rid) && !(getAttr r "id" == some rid)
  | .delete id => !(id == rid)
  | _ => true

/-- Appending on the right preserves the first match of `find?`. -/
theorem find?_append_preserve {α : Type} (pr : α → Bool) (r x : α) (l : List α)
    (hf : l.find? pr = some r) : (l ++ [x]).find? pr = some r := by
  rw [List.find?_append, hf]
  rfl

/-- Writing a non-`pr` element at the position of the first `pu` match
preserves the first `pr` match `r`, provided `r` itself is not a `pu`
match. -/
theorem find?_set_preserve {α : Type} (pr pu : α → Bool) (r x : α)
    (hpu : pu r = false) (hpx : pr x = false) :
    ∀ (l : List α) (i : Nat), l.find? pr = some r → l.findIdx? pu = some i →
      (l.set i x).find? pr = some r := by
  intro l
  induction l with
  | nil => intro i hf _; simp at hf
  | cons a t ih =>
    intro i hf hi
    rw [List.findIdx?_cons] at hi
    by_cases hua : pu a = true
    · rw [if_pos hua] at hi
      obtain rfl : 0 = i := Option.some.inj hi
      by_cases hra : pr a = true
      · rw [List.find?_cons_of_pos t hra] at hf
        obtain rfl : a = r := Option.some.inj hf
        rw [hpu] at hua
        exact Bool.noConfusion hua
      · rw [List.find?_cons_of_neg t hra] at hf
        rw [List.set_cons_zero, List.find?_cons_of_neg t (by simp [hpx])]
        exact hf
    · rw [if_neg hua, List.findIdx?_start_succ] at hi
      obtain ⟨j, hj, rfl⟩ := Option.map_eq_some'.mp hi
      rw [List.set_cons_succ]
      by_cases hra : pr a = true
      · rw [List.find?_cons_of_pos _ hra] at hf ⊢
        exact hf
      · rw [List.find?_cons_of_neg _ hra] at hf ⊢
        exact ih j hf hj

/-- Removing the position of the first `pu` match preserves the first
`pr` match `r`, provided `r` itself is not a `pu` match. -/
theorem find?_eraseIdx_preserve {α : Type} (pr pu : α → Bool) (r : α)
    (hpu : pu r = false) :
    ∀ (l : List α) (i : Nat), l.find? pr = some r → l.findIdx? pu = some i →
      (l.eraseIdx i).find? pr = some r := by
  intro l
  induction l with
  | nil => intro i hf _; simp at hf
  | cons a t ih =>
    intro i hf hi
    rw [List.findIdx?_cons] at hi
    by_cases hua : pu a = true
    · rw [if_pos hua] at hi
      obtain rfl : 0 = i := Option.some.inj hi
      by_cases hra : pr a = true
      · rw [List.find?_cons_of_pos t hra] at hf
        obtain rfl : a = r := Option.some.inj hf
        rw [hpu] at hua
        exact Bool.noConfusion hua
      · rw [List.find?_cons_of_neg t hra] at hf
        rw [List.eraseIdx_zero]
        exact hf
    · rw [if_neg hua, List.findIdx?_start_succ] at hi
      obtain ⟨j, hj, rfl⟩ := Option.map_eq_some'.mp hi
      show (a :: t.eraseIdx j).find? pr = some r
      by_cases hra : pr a = true
      · rw [List.find?_cons_of_pos _ hra] at hf ⊢
        exact hf
      · rw [List.find?_cons_of_neg _ hra] at hf ⊢
        exact ih j hf hj

/-- Creating a record into a store free of its identifier makes it the
first match of that identifier. -/
theorem findById_create_fresh (s : Store) (r : Rec) (rid : String)
    (hid : getAttr r "id" = some rid)
    (hs : ∀ x ∈ s, getAttr x "id" ≠ some rid) :
    InMemoryDatabase.findById (InMemoryDatabase.create s r) rid = some r := by
  show (s ++ [r]).find? (InMemoryDatabase.idMatches rid) = some r
  have hnone : s.find? (InMemoryDatabase.idMatches rid) = none := by
    rw [List.find?_eq_none]
    intro x hx
    simp [InMemoryDatabase.idMatches]
    exact hs x hx
  rw [List.find?_append, hnone]
  simp [InMemoryDatabase.idMatches, hid]

/-- The store after an `update` call, as a function of `findIdx?`. -/
theorem applyOp_update (s : Store) (id : String) (x : Rec) :
    applyOp s (Op.update id x) = (InMemoryDatabase.update s id x).1 := by
  simp only [applyOp, runMethod]
  rcases InMemoryDatabase.update s id x with ⟨t, e⟩
  cases e <;> rfl

/-- The store after a `delete` call is the first component returned by
the embedded `delete`. -/
theorem applyOp_delete (s : Store) (id : String) :
    applyOp s (Op.delete id) = (InMemoryDatabase.delete s id).1 := by
  simp only [applyOp, runMethod]
  rcases InMemoryDatabase.delete s id with ⟨t, e⟩
  cases e <;> rfl

/-- One method call that avoids identifier `rid` preserves the first
`rid` match. -/
theorem findById_applyOp_preserve (rid : String) (r : Rec) (op : Op)
    (hop : avoidsId rid op = true) (s : Store)
    (hf : InMemoryDatabase.findById s rid = some r) :
    InMemoryDatabase.findById (applyOp s op) rid = some r := by
  have hpr : InMemoryDatabase.idMatches rid r = true := List.find?_some hf
  have hrid : getAttr r "id" = some rid := by
    have h := hpr
    simp [InMemoryDatabase.idMatches] at h
    exact h
  cases op with
  | find p => exact hf
  | findById id => exact hf
  | filter p => exact hf
  | create x => exact find?_append_preserve _ r x s hf
  | update id x =>
    simp only [avoidsId, Bool.and_eq_true, Bool.not_eq_true'] at hop
    obtain ⟨hid, hx⟩ := hop
    have hne : id ≠ rid := by
      intro he
      rw [he] at hid
      simp at hid
    have hpu : InMemoryDatabase.idMatches id r = false := by
      rw [InMemoryDatabase.idMatches, hrid, beq_eq_false_iff_ne]
      intro he
      exact hne (Option.some.inj he).symm
    have hpx : InMemoryDatabase.idMatches rid x = false := hx
    rw [applyOp_update]
    show (InMemoryDatabase.update s id x).1.find? (InMemoryDatabase.idMatches rid) = some r
    cases hidx : s.findIdx? (InMemoryDatabase.idMatches id) with
    | none =>
      have hsame : (InMemoryDatabase.update s id x).1 = s := by
        simp [InMemoryDatabase.update, hidx]
      rw [hsame]
      exact hf
    | some i =>
      have hset : (InMemoryDatabase.update s id x).1 = s.set i x := by
        simp [InMemoryDatabase.update, hidx]
      rw [hset]
      exact find?_set_preserve _ _ r x hpu hpx s i hf hidx
  | delete id =>
    simp only [avoidsId, Bool.not_eq_true'] at hop
    have hne : id ≠ rid := by
      intro he
      rw [he] at hop
      simp at hop
    have hpu : InMemoryDatabase.idMatches id r = false := by
      rw [InMemoryDatabase.idMatches, hrid, beq_eq_false_iff_ne]
      intro he
      exact hne (Option.some.inj he).symm
    rw [applyOp_delete]
    show (InMemoryDatabase.delete s id).1.find? (InMemoryDatabase.idMatches rid) = some r
    cases hidx : s.findIdx? (InMemoryDatabase.idMatches id) with
    | none =>
      have hsame : (InMemoryDatabase.delete s id).1 = s := by
        simp [InMemoryDatabase.delete, hidx]
      rw [hsame]
      exact hf
    | some i =>
      have herase : (InMemoryDatabase.delete s id).1 = s.eraseIdx i := by
        simp [InMemoryDatabase.delete, hidx]
      rw [herase]
      exact find?_eraseIdx_preserve _ _ r hpu s i hf hidx

/-- A sequence of calls avoiding identifier `rid` preserves the first
`rid` match. -/
theorem findById_applyOps_preserve (rid : String) (r : Rec) :
    ∀ (ops : List Op) (s : Store),
      InMemoryDatabase.findById s rid = some r →
      (∀ op ∈ ops, avoidsId rid op = true) →
      InMemoryDatabase.findById (applyOps s ops) rid = some r := by
  intro ops
  induction ops with
  | nil => intro s hf _; exact hf
  | cons op ops ih =>
    intro s hf hops
    exact ih (applyOp s op)
      (findById_applyOp_preserve rid r op (hops op (List.mem_cons_self op ops)) s hf)
      (fun o ho => hops o (List.mem_cons_of_mem op ho))

/-- C1 (amended): a record `r` created into a store holding no record
with `r`'s identifier is returned by `findById` on that identifier
after any sequence of further calls, as long as none of them updates or
deletes that identifier and none installs, via an update of another
identifier, a replacement record carrying it. -/
theorem create_findById_stable (s : Store) (r : Rec) (rid : String) (ops : List Op)
    (hid : getAttr r "id" = some rid)
    (hs : ∀ x ∈ s, getAttr x "id" ≠ some rid)
    (hops : ∀ op ∈ ops, avoidsId rid op = true) :
    InMemoryDatabase.findById (applyOps (InMemoryDatabase.create s r) ops) rid = some r :=
  findById_applyOps_preserve rid r ops (InMemoryDatabase.create s r)
    (findById_create_fresh s r rid hid hs) hops

/-- Witness for C1: a concrete run with an intervening create, update
and delete on another identifier and an intervening read. -/
theorem create_findById_stable_witness :
    InMemoryDatabase.findById
      (applyOps (InMemoryDatabase.create [] recA)
        [Op.create recB, Op.update "2" recB, Op.delete "2", Op.findById "1"]) "1" =
      some recA :=
  create_findById_stable [] recA "1"
    [Op.create recB, Op.update "2" recB, Op.delete "2", Op.findById "1"]
    (by decide) (by decide) (by decide)
